import Mathlib

/-
Verification of the EigenGate core (cirq/ops/eigen_gate.py).

Embedding conventions:
- Python floats are modelled as exact rationals; the algorithms in the source
  (period derivation, canonicalization, equality, trace-distance bound) are
  pure arithmetic, so the rational idealization is faithful.
- The symbolic-parameter type (cirq.value.Symbol) and protocols.mul live
  outside the given source file; they are modelled from the spec where needed
  (see Expo and EigenGate.mul).
- The class of a gate instance (type(self) in Python) is modelled by a tag of
  an arbitrary type with a decidable equality, together with a boolean
  subclass relation standing for isinstance.
- The unitary matrix reconstruction uses complex scalars; the projector
  matrices are elements of an arbitrary complex module, which covers the
  concrete 2x2 complex matrices of the test scenarios.
-/

/-- An exponent value: either a concrete real number (here a rational) or a
symbolic placeholder.  Modelled from the spec: the symbolic-parameter type
(cirq.value.Symbol) is outside the given source; per spec section 9 it is a
tagged variant, and symbols compare by their placeholder identity. -/
inductive Expo where
  | concrete (x : ℚ)
  | symbol (s : String)
deriving DecidableEq

/-- State of an EigenGate instance (eigen_gate.py lines 59-90 and the
abstract _eigen_components of lines 104-157): the class tag (type of self),
the eigen-decomposition the class supplies (angle, projector pairs), the
exponent, and the global_negate_rate.  The canonical-exponent cache of the
source is a pure memoization and is elided. -/
structure EigenGate (τ : Type) (M : Type) where
  cls : τ
  eigen_components : List (ℚ × M)
  exponent : Expo
  global_negate_rate : ℚ

/-- np.round to the nearest integer, ties to even (numpy's convention),
as used at eigen_gate.py line 173. -/
def np_round (q : ℚ) : ℤ :=
  let f := ⌊q⌋
  let r := q - f
  if r < 1/2 then f
  else if 1/2 < r then f + 1
  else if 2 ∣ f then f else f + 1

/-- np.lcm.reduce over a list of integers (eigen_gate.py line 176).  numpy
reduces left to right starting from the first element; the source only calls
it on a nonempty list (guarded by the real_periods emptiness check), the
empty case here is an arbitrary total-function default. -/
def lcm_reduce : List ℤ → ℤ
  | [] => 1
  | x :: xs => xs.foldl (fun a b => (Int.lcm a b : ℤ)) x

/-- Python's modulo on numbers: x % p = x - p * floor (x / p), which lands in
[0, p) for p > 0.  Only called with a nonzero period (eigen_gate.py line 191,
guarded by the falsiness check on line 188). -/
def pymod (x p : ℚ) : ℚ := x - p * ⌊x / p⌋

/-- The real candidate periods of eigen_gate.py lines 168-170: shift every
eigen-angle by global_negate_rate, drop the zero shifted angles, map each
remaining angle e to abs (2 / e). -/
def EigenGate.candidate_periods {τ M : Type} (g : EigenGate τ M) : List ℚ :=
  ((g.eigen_components.map (fun ec => ec.1 + g.global_negate_rate)).filter
      (fun e => e != 0)).map (fun e => |2 / e|)

/-- EigenGate._period (eigen_gate.py lines 159-176): 0 when no nonzero
shifted angle exists; None when some candidate period differs from its
np.round value; otherwise the lcm of the (integer) candidates. -/
def EigenGate.period {τ M : Type} (g : EigenGate τ M) : Option ℚ :=
  let real_periods := g.candidate_periods
  if real_periods.isEmpty then some 0
  else
    let int_periods := real_periods.map np_round
    if (real_periods.zip int_periods).any (fun ir => ((ir.2 : ℚ) != ir.1)) then
      none
    else some ((lcm_reduce int_periods : ℤ) : ℚ)

/-- Modelled from the spec: the period-derivation algorithm as worded in
section 4.2, steps 1-5, for comparison with EigenGate.period.  A candidate
equals its nearest integer exactly when it is an integer, i.e. its reduced
denominator is 1; the result is then the lcm of the integer candidates
(their numerators). -/
def EigenGate.period_spec {τ M : Type} (g : EigenGate τ M) : Option ℚ :=
  let cands := g.candidate_periods
  if cands.isEmpty then some 0
  else if cands.all (fun c => c.den == 1) then
    some ((lcm_reduce (cands.map Rat.num) : ℤ) : ℚ)
  else none

/-- EigenGate._canonical_exponent (eigen_gate.py lines 184-192): keep the raw
exponent when the period is falsy (None or 0) or the exponent is symbolic;
otherwise reduce the exponent with Python's modulo by the period. -/
def EigenGate.canonical_exponent {τ M : Type} (g : EigenGate τ M) : Expo :=
  match g.period with
  | none => g.exponent
  | some p =>
    if p = 0 then g.exponent
    else
      match g.exponent with
      | .symbol s => .symbol s
      | .concrete x => .concrete (pymod x p)

/-- EigenGate._with_exponent (eigen_gate.py lines 93-102): same kind of gate
(same class, hence same eigen-decomposition and same global_negate_rate),
with a different exponent. -/
def EigenGate.with_exponent {τ M : Type} (g : EigenGate τ M) (e : Expo) :
    EigenGate τ M :=
  { g with exponent := e }

/-- Modelled from the spec: protocols.mul with a NotImplemented default
(eigen_gate.py line 179) is outside the given source.  Per spec sections 4.4
and 6, multiplication of two concrete values is their product, and the
operation defers (returns the not-supported sentinel, here none) when an
operand is symbolic and the combination is not reducible. -/
def EigenGate.mul : Expo → Expo → Option Expo
  | .concrete x, .concrete y => some (.concrete (x * y))
  | _, _ => none

/-- EigenGate.__pow__ (eigen_gate.py lines 178-182): multiply the current
exponent by the given one; propagate NotImplemented (none) when the
multiplication declines, otherwise rebuild with the product exponent. -/
def EigenGate.pow {τ M : Type} (g : EigenGate τ M) (exponent : Expo) :
    Option (EigenGate τ M) :=
  match EigenGate.mul g.exponent exponent with
  | none => none
  | some e => some (g.with_exponent e)

/-- EigenGate._identity_tuple (eigen_gate.py lines 194-197). -/
def EigenGate.identity_tuple {τ M : Type} (g : EigenGate τ M) :
    τ × Expo × ℚ :=
  (g.cls, g.canonical_exponent, g.global_negate_rate)

/-- EigenGate.__eq__ (eigen_gate.py lines 199-202): NotImplemented (none)
unless other is an instance of type(self) (the boolean relation sub models
isinstance, other's class first); otherwise compare identity tuples. -/
def EigenGate.eq {τ M : Type} [DecidableEq τ] (sub : τ → τ → Bool)
    (g other : EigenGate τ M) : Option Bool :=
  if sub other.cls g.cls then
    some (decide (g.identity_tuple = other.identity_tuple))
  else none

/-- EigenGate._trace_distance_bound_ (eigen_gate.py lines 210-217): 1 for a
symbolic exponent, otherwise abs ((max angle - min angle) * exponent * 3.5);
Python's min and max on the angle list (the source would raise on an empty
decomposition, the empty case here is an arbitrary total-function default). -/
def EigenGate.trace_distance_bound {τ M : Type} (g : EigenGate τ M) : ℚ :=
  match g.exponent with
  | .symbol _ => 1
  | .concrete e =>
    match g.eigen_components.map Prod.fst with
    | [] => 0
    | a :: as =>
      let min_angle := as.foldl min a
      let max_angle := as.foldl max a
      |(max_angle - min_angle) * e * (7/2)|

/-- numpy's 1j ** x for real x: the principal branch exp (x * log 1j) with
log 1j = i * pi / 2 (eigen_gate.py line 227). -/
noncomputable def ipow (x : ℝ) : ℂ :=
  Complex.exp ((x : ℂ) * ((Real.pi : ℂ) / 2) * Complex.I)

/-- EigenGate._unitary_ (eigen_gate.py lines 222-230): NotImplemented (none)
for a symbolic exponent; otherwise the sum over eigen-components of the
projector scaled by 1j ** (2 * e * (half_turns + global_negate_rate)). -/
noncomputable def EigenGate.unitary {τ M : Type} [AddCommMonoid M]
    [Module ℂ M] (g : EigenGate τ M) : Option M :=
  match g.exponent with
  | .symbol _ => none
  | .concrete e =>
    some ((g.eigen_components.map (fun ec =>
      ipow (2 * (e : ℝ) * ((ec.1 : ℝ) + (g.global_negate_rate : ℝ))) •
        ec.2)).sum)

/-- A tiny concrete class hierarchy for counterexamples and witnesses:
B is a strict subclass of A. -/
inductive Cls where
  | A
  | B
deriving DecidableEq

/-- isinstance for the Cls hierarchy: clsSub c d is true when an instance of
class c is an instance of class d. -/
def clsSub : Cls → Cls → Bool :=
  fun c d => c == d || (c == Cls.B && d == Cls.A)

/-- A Pauli-Z-like gate over trivial projectors: angles 0 and 1, shift 0,
exponent 1. -/
def gZu : EigenGate Cls Unit :=
  ⟨Cls.A, [(0, ()), (1, ())], Expo.concrete 1, 0⟩

/-- Same decomposition as gZu but with exponent 1.5. -/
def gZ15 : EigenGate Cls Unit :=
  ⟨Cls.A, [(0, ()), (1, ())], Expo.concrete (3/2), 0⟩

/-- Angles 0 and 0.3, shift 0: the non-integer candidate-period scenario. -/
def g03 : EigenGate Cls Unit :=
  ⟨Cls.A, [(0, ()), (3/10, ())], Expo.concrete 1, 0⟩

/-- A gate with a symbolic exponent. -/
def gSymU : EigenGate Cls Unit :=
  ⟨Cls.A, [(0, ()), (1, ())], Expo.symbol "t", 0⟩

/-- Same decomposition as gZu, class A, exponent 1. -/
def gAu : EigenGate Cls Unit :=
  ⟨Cls.A, [(0, ()), (1, ())], Expo.concrete 1, 0⟩

/-- Same decomposition and exponent as gAu but class B (a strict subclass
of A). -/
def gBu : EigenGate Cls Unit :=
  ⟨Cls.B, [(0, ()), (1, ())], Expo.concrete 1, 0⟩

/-- Degenerate gate: a single eigen-component with shifted angle 0,
exponent 1. -/
def gDeg1 : EigenGate Cls Unit :=
  ⟨Cls.A, [(0, ())], Expo.concrete 1, 0⟩

/-- Same as gDeg1 but with raw exponent 2. -/
def gDeg2 : EigenGate Cls Unit :=
  ⟨Cls.A, [(0, ())], Expo.concrete 2, 0⟩

/-- Gate with angles 0 and 1 and a negative concrete exponent. -/
def gNeg : EigenGate Cls Unit :=
  ⟨Cls.A, [(0, ()), (1, ())], Expo.concrete (-1), 0⟩

/-- The Pauli-Z scenario over actual 2x2 complex matrices: components
(angle 0, projector [[1,0],[0,0]]) and (angle 1, projector [[0,0],[0,1]]),
exponent 1, shift 0. -/
noncomputable def gZ2 : EigenGate Cls (Matrix (Fin 2) (Fin 2) ℂ) :=
  ⟨Cls.A, [(0, !![1, 0; 0, 0]), (1, !![0, 0; 0, 1])], Expo.concrete 1, 0⟩

/-! Basic facts about the embedded operations. -/

theorem EigenGate.with_exponent_cls {τ M : Type} (g : EigenGate τ M)
    (e : Expo) : (g.with_exponent e).cls = g.cls := rfl

theorem EigenGate.with_exponent_exponent {τ M : Type} (g : EigenGate τ M)
    (e : Expo) : (g.with_exponent e).exponent = e := rfl

theorem EigenGate.with_exponent_components {τ M : Type} (g : EigenGate τ M)
    (e : Expo) :
    (g.with_exponent e).eigen_components = g.eigen_components := rfl

theorem EigenGate.with_exponent_rate {τ M : Type} (g : EigenGate τ M)
    (e : Expo) :
    (g.with_exponent e).global_negate_rate = g.global_negate_rate := rfl

theorem EigenGate.period_with_exponent {τ M : Type} (g : EigenGate τ M)
    (e : Expo) : (g.with_exponent e).period = g.period := rfl

theorem EigenGate.canonical_exponent_of_falsy_period {τ M : Type}
    (g : EigenGate τ M) (h : g.period = none ∨ g.period = some 0) :
    g.canonical_exponent = g.exponent := by
  unfold EigenGate.canonical_exponent
  rcases h with h | h
  · rw [h]
  · rw [h]
    simp

theorem EigenGate.canonical_exponent_of_symbol {τ M : Type}
    (g : EigenGate τ M) (s : String) (hx : g.exponent = .symbol s) :
    g.canonical_exponent = g.exponent := by
  unfold EigenGate.canonical_exponent
  cases hp : g.period with
  | none => rfl
  | some p =>
    by_cases h0 : p = 0
    · simp [h0]
    · simp [h0, hx]

theorem EigenGate.canonical_exponent_concrete {τ M : Type}
    (g : EigenGate τ M) (p x : ℚ) (hp : g.period = some p) (h0 : p ≠ 0)
    (hx : g.exponent = .concrete x) :
    g.canonical_exponent = .concrete (pymod x p) := by
  unfold EigenGate.canonical_exponent
  rw [hp, hx]
  simp [h0]

theorem pymod_idem (x p : ℚ) (hp : p ≠ 0) :
    pymod (pymod x p) p = pymod x p := by
  unfold pymod
  have h1 : (x - p * ⌊x / p⌋) / p = x / p - (⌊x / p⌋ : ℚ) := by
    field_simp
  rw [h1, Int.floor_sub_int, sub_self, Int.cast_zero, mul_zero, sub_zero]

theorem pymod_add_right (e p : ℚ) (hp : p ≠ 0) :
    pymod (e + p) p = pymod e p := by
  unfold pymod
  have h1 : (e + p) / p = e / p + 1 := by
    field_simp
  rw [h1, Int.floor_add_one]
  push_cast
  ring

theorem np_round_intCast (k : ℤ) : np_round (k : ℚ) = k := by
  unfold np_round
  rw [Int.floor_intCast]
  simp

theorem np_round_cast_eq_iff (q : ℚ) :
    ((np_round q : ℤ) : ℚ) = q ↔ q.den = 1 := by
  constructor
  · intro h
    rw [← h]
    exact Rat.den_intCast _
  · intro h
    obtain hq := (Rat.den_eq_one_iff q).mp h
    rw [← hq, np_round_intCast]

theorem np_round_bne (a : ℚ) :
    (((np_round a : ℤ) : ℚ) != a) = !(a.den == 1) := by
  rw [show (((np_round a : ℤ) : ℚ) != a) = !(((np_round a : ℤ) : ℚ) == a) from rfl]
  congr 1
  rw [Bool.eq_iff_iff, beq_iff_eq, beq_iff_eq]
  exact np_round_cast_eq_iff a

theorem zip_np_round_any (l : List ℚ) :
    ((l.zip (l.map np_round)).any fun ir => ((ir.2 : ℚ) != ir.1)) =
      !(l.all fun c => c.den == 1) := by
  induction l with
  | nil => rfl
  | cons a as ih =>
    simp only [List.map_cons, List.zip_cons_cons, List.any_cons,
      List.all_cons, Bool.not_and, ih]
    rw [np_round_bne]

theorem map_np_round_of_all_int (l : List ℚ)
    (h : (l.all fun c => c.den == 1) = true) :
    l.map np_round = l.map Rat.num := by
  induction l with
  | nil => rfl
  | cons a as ih =>
    simp only [List.all_cons, Bool.and_eq_true, beq_iff_eq] at h
    obtain ⟨ha, has⟩ := h
    simp only [List.map_cons]
    rw [ih (by simpa using has)]
    obtain hq := (Rat.den_eq_one_iff a).mp ha
    rw [show np_round a = np_round ((a.num : ℤ) : ℚ) by rw [hq],
      np_round_intCast]

/-- C3: the period derivation of EigenGate._period agrees with the spec's
worded algorithm (shift angles, candidates abs (2 divided by angle), None
exactly when some candidate is not an integer, else lcm), and on the two
dictated scenarios: angles 0 and 1 with zero shift give period 2, and
angles 0 and 0.3 give no period. -/
theorem c3_period_derivation :
    (∀ (τ M : Type) (g : EigenGate τ M), g.period = g.period_spec) ∧
    EigenGate.period gZu = some 2 ∧ EigenGate.period g03 = none := by
  refine ⟨fun τ M g => ?_, ?_, ?_⟩
  · unfold EigenGate.period EigenGate.period_spec
    simp only []
    generalize g.candidate_periods = l
    by_cases hl : l.isEmpty
    · simp [hl]
    · simp only [hl, Bool.false_eq_true, if_false]
      cases hall : (l.all fun c => c.den == 1) with
      | false =>
        rw [zip_np_round_any, hall]
        simp
      | true =>
        rw [zip_np_round_any, hall, map_np_round_of_all_int l hall]
        simp
  · simp [EigenGate.period, EigenGate.candidate_periods, np_round,
      lcm_reduce, gZu]
  · have h0 : |2 / (3 / 10 : ℚ)| = 20 / 3 := by
      rw [abs_of_pos] <;> norm_num
    have h : np_round (20 / 3 : ℚ) = 7 := by
      have h6 : ⌊(20 / 3 : ℚ)⌋ = 6 := by norm_num
      simp only [np_round, h6]
      rw [if_neg (by norm_num), if_pos (by norm_num)]
      decide
    simp [EigenGate.period, EigenGate.candidate_periods, lcm_reduce, g03,
      h0, h]
    norm_num

/-- C1: code bug evidence.  For the gate with eigen-angles 0 and 1, zero
shift (period 2) and raw exponent 1.5, the code computes the canonical
exponent as 1.5 mod 2 = 1.5 with Python's modulo, which is neither in the
documented half-open interval (-period/2, period/2] nor equal to -0.5, the
representative promised by the docstring of _period and by the spec. -/
theorem c1_canonical_exponent_code_eval :
    EigenGate.period gZ15 = some 2 ∧
    EigenGate.canonical_exponent gZ15 = Expo.concrete (3 / 2) ∧
    ¬(-(2 : ℚ) / 2 < 3 / 2 ∧ (3 / 2 : ℚ) ≤ 2 / 2) ∧
    (3 / 2 : ℚ) ≠ -(1 / 2) := by
  have hp : EigenGate.period gZ15 = some 2 := by
    simp [EigenGate.period, EigenGate.candidate_periods, np_round,
      lcm_reduce, gZ15]
  refine ⟨hp, ?_, by norm_num, by norm_num⟩
  rw [EigenGate.canonical_exponent_concrete gZ15 2 (3 / 2) hp
    (by norm_num) rfl]
  unfold pymod
  norm_num

/-- C5: the power operation maps the gate through the multiplication with
fallback: it rebuilds the same class with the product exponent and the
unchanged global_negate_rate, multiplication of concrete operands is their
product, and when the multiplication declines the power operation returns
the not-supported sentinel. -/
theorem c5_pow_spec (τ M : Type) (g : EigenGate τ M) (m : Expo) :
    g.pow m = (EigenGate.mul g.exponent m).map g.with_exponent ∧
    (∀ x y : ℚ,
      EigenGate.mul (.concrete x) (.concrete y) = some (.concrete (x * y))) ∧
    (∀ e : Expo, (g.with_exponent e).cls = g.cls ∧
      (g.with_exponent e).exponent = e ∧
      (g.with_exponent e).global_negate_rate = g.global_negate_rate) ∧
    (EigenGate.mul g.exponent m = none → g.pow m = none) := by
  refine ⟨?_, fun x y => rfl, fun e => ⟨rfl, rfl, rfl⟩, fun h => ?_⟩
  · unfold EigenGate.pow
    cases EigenGate.mul g.exponent m <;> rfl
  · unfold EigenGate.pow
    rw [h]

/-- Witness for c5_pow_spec: a symbolic exponent makes the multiplication
decline and the power operation return the sentinel. -/
theorem c5_pow_spec_witness : EigenGate.pow gSymU (Expo.concrete 2) = none :=
  (c5_pow_spec Cls Unit gSymU (Expo.concrete 2)).2.2.2 rfl

/-- C10: when the right operand is an instance of a strict subclass of the
left operand's type, equality returns False (their identity tuples differ in
the class component); the not-comparable sentinel is returned exactly when
the right operand is not an instance of the left operand's type. -/
theorem c10_subclass_eq {τ M : Type} [DecidableEq τ] (sub : τ → τ → Bool)
    (g h : EigenGate τ M) :
    (sub h.cls g.cls = true → h.cls ≠ g.cls →
      EigenGate.eq sub g h = some false) ∧
    (EigenGate.eq sub g h = none ↔ sub h.cls g.cls = false) := by
  constructor
  · intro hs hne
    unfold EigenGate.eq
    rw [if_pos hs]
    simp only [Option.some.injEq, decide_eq_false_iff_not,
      EigenGate.identity_tuple, Prod.mk.injEq, not_and]
    intro hcls
    exact absurd hcls.symm hne
  · unfold EigenGate.eq
    by_cases hs : sub h.cls g.cls = true <;> simp [hs]

/-- Witness for c10_subclass_eq at the concrete hierarchy: gBu's class B is
a strict subclass of gAu's class A, and equality returns False. -/
theorem c10_subclass_eq_witness : EigenGate.eq clsSub gAu gBu = some false :=
  (c10_subclass_eq clsSub gAu gBu).1 (by decide) (by decide)

/-- Gate like gAu but with raw exponent 5 (canonical exponent also 1, since
5 mod 2 = 1). -/
def gA5 : EigenGate Cls Unit :=
  ⟨Cls.A, [(0, ()), (1, ())], Expo.concrete 5, 0⟩

/-- C2 counterexample: gBu's class is a strict subclass of gAu's class, so
the two operands have different concrete subtypes, yet the equality
operation returns the boolean False rather than the not-comparable
sentinel. -/
theorem c2_cross_subtype_counterexample :
    gAu.cls ≠ gBu.cls ∧ EigenGate.eq clsSub gAu gBu ≠ none ∧
    EigenGate.eq clsSub gAu gBu = some false := by
  refine ⟨by decide, ?_, ?_⟩ <;>
    simp [EigenGate.eq, clsSub, gAu, gBu, EigenGate.identity_tuple]

/-- C2 amended: equality holds iff same class, equal canonical exponents and
equal global_negate_rate; but the sentinel is produced exactly when the
right operand is not an instance of the left operand's type, not whenever
the concrete subtypes differ. -/
theorem c2_eq_characterization {τ M : Type} [DecidableEq τ]
    (sub : τ → τ → Bool) (hrefl : ∀ c, sub c c = true)
    (g h : EigenGate τ M) :
    (EigenGate.eq sub g h = some true ↔
      (g.cls = h.cls ∧ g.canonical_exponent = h.canonical_exponent ∧
        g.global_negate_rate = h.global_negate_rate)) ∧
    (EigenGate.eq sub g h = none ↔ ¬sub h.cls g.cls = true) := by
  constructor
  · constructor
    · intro he
      unfold EigenGate.eq at he
      by_cases hs : sub h.cls g.cls = true
      · rw [if_pos hs] at he
        simp only [Option.some.injEq, decide_eq_true_eq,
          EigenGate.identity_tuple, Prod.mk.injEq] at he
        exact he
      · rw [if_neg hs] at he
        exact absurd he (by simp)
    · rintro ⟨h1, h2, h3⟩
      unfold EigenGate.eq
      rw [if_pos (h1 ▸ hrefl g.cls)]
      simp [EigenGate.identity_tuple, h1, h2, h3]
  · unfold EigenGate.eq
    by_cases hs : sub h.cls g.cls = true <;> simp [hs]

/-- Witness for c2_eq_characterization: gAu (raw exponent 1) and gA5 (raw
exponent 5) have equal canonical exponents and compare equal. -/
theorem c2_eq_characterization_witness :
    EigenGate.eq clsSub gAu gA5 = some true := by
  have hpA : EigenGate.period gAu = some 2 := by
    simp [EigenGate.period, EigenGate.candidate_periods, np_round,
      lcm_reduce, gAu]
  have hp5 : EigenGate.period gA5 = some 2 := by
    simp [EigenGate.period, EigenGate.candidate_periods, np_round,
      lcm_reduce, gA5]
  refine (c2_eq_characterization clsSub (fun c => by cases c <;> rfl) gAu gA5).1.mpr
    ⟨rfl, ?_, rfl⟩
  rw [EigenGate.canonical_exponent_concrete gAu 2 1 hpA (by norm_num) rfl,
    EigenGate.canonical_exponent_concrete gA5 2 5 hp5 (by norm_num) rfl]
  unfold pymod
  norm_num

/-- C4 counterexample: the degenerate gates gDeg1 and gDeg2 (single
eigen-component with shifted angle 0) have period 0, yet with different raw
exponents they compare unequal: period 0 is falsy, so no canonicalization
to a fixed value happens. -/
theorem c4_degenerate_counterexample :
    EigenGate.period gDeg1 = some 0 ∧
    EigenGate.eq clsSub gDeg1 gDeg2 = some false := by
  constructor
  · simp [EigenGate.period, EigenGate.candidate_periods, gDeg1]
  · simp [EigenGate.eq, clsSub, gDeg1, gDeg2, EigenGate.identity_tuple,
      EigenGate.canonical_exponent, EigenGate.period,
      EigenGate.candidate_periods]

/-- C4 amended: when every shifted eigen-angle is zero the period is 0, but
a zero period is treated as falsy, so the canonical exponent stays the raw
exponent and two such operators compare equal exactly when class, raw
exponent, and global_negate_rate all agree. -/
theorem c4_degenerate_period {τ M : Type} [DecidableEq τ]
    (sub : τ → τ → Bool) (g h : EigenGate τ M)
    (hg : ∀ ec ∈ g.eigen_components, ec.1 + g.global_negate_rate = 0)
    (hh : ∀ ec ∈ h.eigen_components, ec.1 + h.global_negate_rate = 0)
    (hs : sub h.cls g.cls = true) :
    g.period = some 0 ∧ g.canonical_exponent = g.exponent ∧
    (EigenGate.eq sub g h = some true ↔
      (g.cls = h.cls ∧ g.exponent = h.exponent ∧
        g.global_negate_rate = h.global_negate_rate)) := by
  have hcand : ∀ (k : EigenGate τ M),
      (∀ ec ∈ k.eigen_components, ec.1 + k.global_negate_rate = 0) →
      k.candidate_periods = [] := by
    intro k hk
    unfold EigenGate.candidate_periods
    rw [List.filter_eq_nil_iff.mpr, List.map_nil]
    intro a ha
    obtain ⟨ec, hec, rfl⟩ := List.mem_map.mp ha
    simp [hk ec hec]
  have hpg : g.period = some 0 := by
    unfold EigenGate.period
    simp [hcand g hg]
  have hph : h.period = some 0 := by
    unfold EigenGate.period
    simp [hcand h hh]
  have hcg : g.canonical_exponent = g.exponent :=
    EigenGate.canonical_exponent_of_falsy_period g (Or.inr hpg)
  have hch : h.canonical_exponent = h.exponent :=
    EigenGate.canonical_exponent_of_falsy_period h (Or.inr hph)
  refine ⟨hpg, hcg, ?_⟩
  unfold EigenGate.eq
  rw [if_pos hs]
  simp [EigenGate.identity_tuple, hcg, hch]

/-- Witness for c4_degenerate_period: gDeg1 compared with itself. -/
theorem c4_degenerate_period_witness :
    EigenGate.eq clsSub gDeg1 gDeg1 = some true :=
  (c4_degenerate_period clsSub gDeg1 gDeg1
    (by intro ec h; simp [gDeg1] at h; simp [h, gDeg1])
    (by intro ec h; simp [gDeg1] at h; simp [h, gDeg1])
    (by decide)).2.2.mpr ⟨rfl, rfl, rfl⟩

/-- C8: canonicalization is idempotent, and exponents e and e + p give equal
operators when the period is a nonzero p. -/
theorem c8_canonicalization_idempotent :
    (∀ (τ M : Type) (g : EigenGate τ M),
      (g.with_exponent g.canonical_exponent).canonical_exponent =
        g.canonical_exponent) ∧
    (∀ (τ M : Type) [DecidableEq τ] (sub : τ → τ → Bool)
      (g : EigenGate τ M) (p e : ℚ),
      sub g.cls g.cls = true → g.period = some p → p ≠ 0 →
      EigenGate.eq sub (g.with_exponent (.concrete e))
        (g.with_exponent (.concrete (e + p))) = some true) := by
  constructor
  · intro τ M g
    have hpw : ∀ e : Expo, (g.with_exponent e).period = g.period :=
      fun e => rfl
    cases hp : g.period with
    | none =>
      rw [EigenGate.canonical_exponent_of_falsy_period _
        (Or.inl ((hpw _).trans hp))]
      rw [EigenGate.with_exponent_exponent]
    | some p =>
      by_cases h0 : p = 0
      · subst h0
        rw [EigenGate.canonical_exponent_of_falsy_period _
          (Or.inr ((hpw _).trans hp))]
        rw [EigenGate.with_exponent_exponent]
      · cases hx : g.exponent with
        | symbol s =>
          have h1 : g.canonical_exponent = g.exponent :=
            EigenGate.canonical_exponent_of_symbol g s hx
          rw [h1]
          rw [EigenGate.canonical_exponent_of_symbol _ s
            ((EigenGate.with_exponent_exponent g _).trans hx)]
          rw [EigenGate.with_exponent_exponent]
        | concrete x =>
          have h1 : g.canonical_exponent = .concrete (pymod x p) :=
            EigenGate.canonical_exponent_concrete g p x hp h0 hx
          rw [h1]
          rw [EigenGate.canonical_exponent_concrete _ p (pymod x p)
            ((hpw _).trans hp) h0 (EigenGate.with_exponent_exponent g _)]
          rw [pymod_idem x p h0]
  · intro τ M _ sub g p e hrefl hp h0
    unfold EigenGate.eq
    rw [if_pos]
    · have h1 : (g.with_exponent (.concrete e)).canonical_exponent =
          .concrete (pymod e p) :=
        EigenGate.canonical_exponent_concrete _ p e hp h0 rfl
      have h2 : (g.with_exponent (.concrete (e + p))).canonical_exponent =
          .concrete (pymod (e + p) p) :=
        EigenGate.canonical_exponent_concrete _ p (e + p) hp h0 rfl
      simp only [EigenGate.identity_tuple, EigenGate.with_exponent_cls,
        EigenGate.with_exponent_rate, h1, h2, pymod_add_right e p h0]
      simp
    · exact hrefl

/-- Witness for c8_canonicalization_idempotent: exponents 1/2 and 1/2 + 2
on the period-2 gate compare equal. -/
theorem c8_canonicalization_idempotent_witness :
    EigenGate.eq clsSub (gZu.with_exponent (.concrete (1/2)))
      (gZu.with_exponent (.concrete (1/2 + 2))) = some true :=
  c8_canonicalization_idempotent.2 Cls Unit clsSub gZu 2 (1/2)
    (by decide)
    (by simp [EigenGate.period, EigenGate.candidate_periods, np_round,
      lcm_reduce, gZu])
    (by norm_num)

theorem foldl_max_spec (as : List ℚ) (a : ℚ) :
    (as.foldl max a = a ∨ as.foldl max a ∈ as) ∧
    a ≤ as.foldl max a ∧ ∀ b ∈ as, b ≤ as.foldl max a := by
  induction as generalizing a with
  | nil => simp
  | cons b bs ih =>
    obtain ⟨hmem, hle, hall⟩ := ih (max a b)
    simp only [List.foldl_cons]
    refine ⟨?_, le_trans (le_max_left a b) hle, ?_⟩
    · rcases hmem with h | h
      · rcases max_choice a b with hm | hm
        · left
          rw [h, hm]
        · right
          rw [h, hm]
          exact List.mem_cons_self b bs
      · exact Or.inr (List.mem_cons_of_mem b h)
    · intro c hc
      rcases List.mem_cons.mp hc with h | h
      · rw [h]
        exact le_trans (le_max_right a b) hle
      · exact hall c h

theorem foldl_min_spec (as : List ℚ) (a : ℚ) :
    (as.foldl min a = a ∨ as.foldl min a ∈ as) ∧
    as.foldl min a ≤ a ∧ ∀ b ∈ as, as.foldl min a ≤ b := by
  induction as generalizing a with
  | nil => simp
  | cons b bs ih =>
    obtain ⟨hmem, hle, hall⟩ := ih (min a b)
    simp only [List.foldl_cons]
    refine ⟨?_, le_trans hle (min_le_left a b), ?_⟩
    · rcases hmem with h | h
      · rcases min_choice a b with hm | hm
        · left
          rw [h, hm]
        · right
          rw [h, hm]
          exact List.mem_cons_self b bs
      · exact Or.inr (List.mem_cons_of_mem b h)
    · intro c hc
      rcases List.mem_cons.mp hc with h | h
      · rw [h]
        exact le_trans hle (min_le_right a b)
      · exact hall c h

/-- C9 amended: the trace-distance bound is 1 for a symbolic exponent, and
for a concrete exponent e on a nonempty decomposition it equals
abs ((max angle - min angle) * e * 3.5) -- the absolute value of the whole
product, which differs from abs (max - min) * e * 3.5 when e is negative. -/
theorem c9_trace_distance_bound_amended {τ M : Type} (g : EigenGate τ M) :
    (∀ s : String, g.exponent = .symbol s → g.trace_distance_bound = 1) ∧
    (∀ e : ℚ, g.exponent = .concrete e → g.eigen_components ≠ [] →
      ∃ mx mn, mx ∈ g.eigen_components.map Prod.fst ∧
        mn ∈ g.eigen_components.map Prod.fst ∧
        (∀ a ∈ g.eigen_components.map Prod.fst, a ≤ mx) ∧
        (∀ a ∈ g.eigen_components.map Prod.fst, mn ≤ a) ∧
        g.trace_distance_bound = |(mx - mn) * e * (7/2)|) := by
  constructor
  · intro s hs
    unfold EigenGate.trace_distance_bound
    rw [hs]
  · intro e he hne
    cases hl : g.eigen_components.map Prod.fst with
    | nil => exact absurd (List.map_eq_nil_iff.mp hl) hne
    | cons a as =>
      obtain ⟨hmaxmem, hmaxle, hmaxall⟩ := foldl_max_spec as a
      obtain ⟨hminmem, hminle, hminall⟩ := foldl_min_spec as a
      refine ⟨as.foldl max a, as.foldl min a, ?_, ?_, ?_, ?_, ?_⟩
      · rcases hmaxmem with h | h
        · rw [h]
          exact List.mem_cons_self a as
        · exact List.mem_cons_of_mem a h
      · rcases hminmem with h | h
        · rw [h]
          exact List.mem_cons_self a as
        · exact List.mem_cons_of_mem a h
      · intro b hb
        rcases List.mem_cons.mp hb with h | h
        · rw [h]
          exact hmaxle
        · exact hmaxall b h
      · intro b hb
        rcases List.mem_cons.mp hb with h | h
        · rw [h]
          exact hminle
        · exact hminall b h
      · unfold EigenGate.trace_distance_bound
        rw [he, hl]

/-- Witness for c9_trace_distance_bound_amended: the symbolic gate has
bound 1. -/
theorem c9_trace_distance_bound_amended_witness :
    EigenGate.trace_distance_bound gSymU = 1 :=
  (c9_trace_distance_bound_amended gSymU).1 "t" rfl

/-- C9 counterexample: with eigen-angles 0 and 1 and exponent -1, the code
returns 3.5, while the claimed formula abs (max - min) * exponent * 3.5
evaluates to -3.5. -/
theorem c9_negative_exponent_counterexample :
    EigenGate.trace_distance_bound gNeg = 7/2 ∧
    |(1 : ℚ) - 0| * (-1) * (7/2) = -(7/2) ∧
    (7/2 : ℚ) ≠ -(7/2) := by
  refine ⟨?_, by norm_num, by norm_num⟩
  simp [EigenGate.trace_distance_bound, gNeg]
  norm_num

theorem ipow_zero : ipow 0 = 1 := by
  unfold ipow
  simp

theorem ipow_one : ipow 1 = Complex.I := by
  unfold ipow
  rw [Complex.ofReal_one, one_mul, Complex.exp_mul_I]
  simp

theorem ipow_two : ipow 2 = -1 := by
  unfold ipow
  rw [show ((2 : ℝ) : ℂ) * ((Real.pi : ℂ) / 2) * Complex.I =
      (Real.pi : ℂ) * Complex.I by push_cast; ring]
  exact Complex.exp_pi_mul_I

/-- C6: the Pauli-Z scenario.  The gate with components (angle 0, projector
[[1,0],[0,0]]) and (angle 1, projector [[0,0],[0,1]]), exponent 1, shift 0
reconstructs the matrix [[1,0],[0,-1]], and raising it to the power 0.5
yields an instance whose matrix is [[1,0],[0,i]]. -/
theorem c6_pauli_z_scenario :
    EigenGate.unitary gZ2 = some !![1, 0; 0, -1] ∧
    ∃ g', EigenGate.pow gZ2 (Expo.concrete (1/2)) = some g' ∧
      EigenGate.unitary g' = some !![1, 0; 0, Complex.I] := by
  constructor
  · unfold EigenGate.unitary gZ2
    simp only [List.map_cons, List.map_nil, List.sum_cons, List.sum_nil]
    norm_num
    rw [ipow_zero, ipow_two]
  · refine ⟨_, rfl, ?_⟩
    unfold EigenGate.unitary
    simp only [EigenGate.with_exponent_exponent,
      EigenGate.with_exponent_components, EigenGate.with_exponent_rate]
    unfold gZ2
    simp only [List.map_cons, List.map_nil, List.sum_cons, List.sum_nil]
    norm_num
    rw [ipow_zero, ipow_one]

/-- C7: power composition.  For a gate with concrete exponent x and concrete
multipliers a and b, (G pow a) pow b and G pow (a * b) succeed and their
reconstructed matrices agree. -/
theorem c7_power_composition {τ M : Type} [AddCommMonoid M] [Module ℂ M]
    (g : EigenGate τ M) (x a b : ℚ) (hx : g.exponent = .concrete x) :
    ∃ g1 g2 g12,
      g.pow (.concrete a) = some g1 ∧
      g1.pow (.concrete b) = some g2 ∧
      g.pow (.concrete (a * b)) = some g12 ∧
      g2.unitary = g12.unitary := by
  refine ⟨g.with_exponent (.concrete (x * a)),
    (g.with_exponent (.concrete (x * a))).with_exponent
      (.concrete (x * a * b)),
    g.with_exponent (.concrete (x * (a * b))), ?_, ?_, ?_, ?_⟩
  · unfold EigenGate.pow EigenGate.mul
    rw [hx]
  · unfold EigenGate.pow EigenGate.mul
    rfl
  · unfold EigenGate.pow EigenGate.mul
    rw [hx]
  · unfold EigenGate.unitary
    simp only [EigenGate.with_exponent_exponent,
      EigenGate.with_exponent_components, EigenGate.with_exponent_rate]
    rw [mul_assoc]

/-- Witness for c7_power_composition at the Pauli-Z matrix gate with
multipliers 1/2 and 3. -/
theorem c7_power_composition_witness :
    ∃ g1 g2 g12,
      EigenGate.pow gZ2 (.concrete (1/2)) = some g1 ∧
      EigenGate.pow g1 (.concrete 3) = some g2 ∧
      EigenGate.pow gZ2 (.concrete ((1/2) * 3)) = some g12 ∧
      EigenGate.unitary g2 = EigenGate.unitary g12 :=
  c7_power_composition gZ2 1 (1/2) 3 rfl
